import Mathlib

/-!
Verification of the orchestration core of the aigroup-paper-mcp repository:
the platform health monitor (record keeping, retry strategy, retry loop),
the token-bucket rate limiter, the search-task scheduler, the parallel
execution strategies, the result merge/deduplication algorithm and the
platform response-time scorer.  Every definition is a shallow embedding of
the corresponding TypeScript function; JavaScript numbers are modelled as
rationals (ℚ) and JavaScript truthiness of optional fields is modelled
explicitly.
-/

namespace Spec2Proof

/-! ### Platform health monitor (src/core/platform-health.ts)

`PlatformPerformanceMetrics` mirrors the mutable record kept per platform.
The `source` and `lastChecked` fields are omitted: no claim depends on them.
-/

structure PlatformPerformanceMetrics where
  successCount : ℕ
  failureCount : ℕ
  totalRequests : ℕ
  successRate : ℚ
  averageLatency : ℚ
  consecutiveFailures : ℕ
  isHealthy : Bool
deriving DecidableEq, Repr

/-- `MAX_CONSECUTIVE_FAILURES` of `PlatformHealthMonitor`. -/
def MAX_CONSECUTIVE_FAILURES : ℕ := 3

/-- `PlatformHealthMonitor.initMetrics`: the lazily created record for a
platform on which no request has been recorded yet. -/
def initMetrics : PlatformPerformanceMetrics :=
  { successCount := 0
    failureCount := 0
    totalRequests := 0
    successRate := 1
    averageLatency := 0
    consecutiveFailures := 0
    isHealthy := true }

/-- `PlatformHealthMonitor.recordSuccess` as a pure state transformer. -/
def recordSuccess (m : PlatformPerformanceMetrics) (latency : ℚ) :
    PlatformPerformanceMetrics :=
  let successCount := m.successCount + 1
  let totalRequests := m.totalRequests + 1
  { successCount := successCount
    failureCount := m.failureCount
    totalRequests := totalRequests
    successRate := (successCount : ℚ) / (totalRequests : ℚ)
    averageLatency :=
      (m.averageLatency * ((successCount : ℚ) - 1) + latency) / (successCount : ℚ)
    consecutiveFailures := 0
    isHealthy := true }

/-- `PlatformHealthMonitor.recordFailure` as a pure state transformer (the
`error` string argument only feeds logging and is dropped). -/
def recordFailure (m : PlatformPerformanceMetrics) : PlatformPerformanceMetrics :=
  let totalRequests := m.totalRequests + 1
  let consecutiveFailures := m.consecutiveFailures + 1
  { successCount := m.successCount
    failureCount := m.failureCount + 1
    totalRequests := totalRequests
    successRate := (m.successCount : ℚ) / (totalRequests : ℚ)
    averageLatency := m.averageLatency
    consecutiveFailures := consecutiveFailures
    isHealthy :=
      if MAX_CONSECUTIVE_FAILURES ≤ consecutiveFailures then false else m.isHealthy }

/-- `PlatformHealthMonitor.resetPlatformHealth` restricted to the metrics
record (the health-check cache is not modelled). -/
def resetPlatformHealth (m : PlatformPerformanceMetrics) :
    PlatformPerformanceMetrics :=
  { m with consecutiveFailures := 0, isHealthy := true }

/-- The operations of the monitor that mutate a platform's health record. -/
inductive HealthOp where
  | success (latency : ℚ)
  | failure
  | reset
deriving Repr

/-- Apply one monitor operation to a metrics record. -/
def applyOp (m : PlatformPerformanceMetrics) : HealthOp → PlatformPerformanceMetrics
  | .success latency => recordSuccess m latency
  | .failure => recordFailure m
  | .reset => resetPlatformHealth m

/-- Run a sequence of monitor operations from the freshly initialised record. -/
def runOps (ops : List HealthOp) : PlatformPerformanceMetrics :=
  ops.foldl applyOp initMetrics

/-- Number of consecutive `failure` operations at the front of a list. -/
def leadingFailures : List HealthOp → ℕ
  | HealthOp.failure :: rest => leadingFailures rest + 1
  | _ => 0

/-- Length of the trailing streak of `failure` operations. -/
def trailingFailures (ops : List HealthOp) : ℕ :=
  leadingFailures ops.reverse

/-- `PlatformHealthMonitor.isHealthy` (the query, on a record). -/
def isHealthyCheck (m : PlatformPerformanceMetrics) : Bool :=
  m.isHealthy && decide ((1 : ℚ) / 2 < m.successRate)

/-! ### Retry strategy (src/core/platform-health.ts, getRetryStrategy) -/

structure RetryStrategy where
  maxRetries : ℕ
  initialDelay : ℚ
  maxDelay : ℚ
  backoffMultiplier : ℚ
  retryableErrors : List String
deriving DecidableEq, Repr

/-- `PlatformHealthMonitor.getRetryStrategy`. -/
def getRetryStrategy (m : PlatformPerformanceMetrics) : RetryStrategy :=
  let base : RetryStrategy :=
    { maxRetries := 3
      initialDelay := 1000
      maxDelay := 10000
      backoffMultiplier := 2
      retryableErrors :=
        ["ECONNRESET", "ETIMEDOUT", "ENOTFOUND", "ECONNREFUSED", "429", "503", "504"] }
  let afterRate : RetryStrategy :=
    if m.successRate < 7 / 10 then { base with maxRetries := 2, maxDelay := 5000 }
    else base
  if 0 < m.consecutiveFailures then
    { afterRate with initialDelay := 2000 * (m.consecutiveFailures : ℚ) }
  else afterRate

/-! ### Search task priority (src/core/parallel/search-task.ts) -/

/-- The priority assigned by `SearchTaskManager.createSearchTasks`:
`successRate * 100 - averageLatency / 10`. -/
def taskPriority (m : PlatformPerformanceMetrics) : ℚ :=
  m.successRate * 100 - m.averageLatency / 10

/-! ### Retry loop (src/core/platform-health.ts, executeWithRetry)

The loop `for (attempt = 0; attempt <= maxRetries; attempt++)` runs the
operation; success returns immediately, a failure is rethrown when the
error is not retryable or `attempt === maxRetries`, and is otherwise
retried after a backoff sleep (sleeping does not affect the outcome).  The
embedding recurses on `remaining = maxRetries - attempt`; `op n` is the
outcome of the n-th attempt and `retryable` is the predicate
`isRetryableError · strategy`. -/

structure RetryOutcome (ε τ : Type) where
  result : Except ε τ
  attempts : ℕ
deriving Repr

/-- The retry loop from attempt `attempt` with `remaining` retries left. -/
def retryGo {ε τ : Type} (retryable : ε → Bool) (op : ℕ → Except ε τ)
    (attempt : ℕ) : ℕ → RetryOutcome ε τ
  | 0 =>
    match op attempt with
    | .ok v => ⟨.ok v, attempt + 1⟩
    | .error e => ⟨.error e, attempt + 1⟩
  | remaining + 1 =>
    match op attempt with
    | .ok v => ⟨.ok v, attempt + 1⟩
    | .error e =>
      if retryable e then retryGo retryable op (attempt + 1) remaining
      else ⟨.error e, attempt + 1⟩

/-- `PlatformHealthMonitor.executeWithRetry`, outcome and attempt count. -/
def executeWithRetry {ε τ : Type} (retryable : ε → Bool) (maxRetries : ℕ)
    (op : ℕ → Except ε τ) : RetryOutcome ε τ :=
  retryGo retryable op 0 maxRetries

/-! ### Token-bucket rate limiter (src/core/rate-limiter.ts)

Real time is passed explicitly: `acquire` receives the clock value `t0` at
entry and the clock value `t1` at which the `setTimeout` wake-up fires
(`setTimeout` guarantees `t1 ≥ t0 + waitTime`). -/

structure RateLimiterState where
  tokens : ℚ
  lastRefill : ℚ
deriving DecidableEq, Repr

/-- `new RateLimiter({maxTokens, refillRate})` at clock value `now`. -/
def RateLimiter.init (maxTokens now : ℚ) : RateLimiterState :=
  ⟨maxTokens, now⟩

/-- `RateLimiter.refill` at clock value `now`. -/
def refill (maxTokens refillRate : ℚ) (s : RateLimiterState) (now : ℚ) :
    RateLimiterState :=
  let elapsed := (now - s.lastRefill) / 1000
  ⟨min maxTokens (s.tokens + elapsed * refillRate), now⟩

/-- The wait computed by `acquire` when fewer than one token is available:
`(1 - tokens) / refillRate * 1000` milliseconds. -/
def acquireWait (refillRate tokens : ℚ) : ℚ :=
  (1 - tokens) / refillRate * 1000

/-- `RateLimiter.acquire`: refill at `t0`; when fewer than one token is
available, sleep and refill again at wake time `t1`; then consume one. -/
def acquire (maxTokens refillRate : ℚ) (s : RateLimiterState) (t0 t1 : ℚ) :
    RateLimiterState :=
  let s1 := refill maxTokens refillRate s t0
  if s1.tokens < 1 then
    let s2 := refill maxTokens refillRate s1 t1
    ⟨s2.tokens - 1, s2.lastRefill⟩
  else ⟨s1.tokens - 1, s1.lastRefill⟩

/-- The token count at the moment `acquire` consumes its token. -/
def tokensAtConsumption (maxTokens refillRate : ℚ) (s : RateLimiterState)
    (t0 t1 : ℚ) : ℚ :=
  let s1 := refill maxTokens refillRate s t0
  if s1.tokens < 1 then (refill maxTokens refillRate s1 t1).tokens
  else s1.tokens

/-- A sequence of `acquire` calls, each given its entry and wake clock. -/
def runAcquires (maxTokens refillRate : ℚ) (s : RateLimiterState) :
    List (ℚ × ℚ) → RateLimiterState
  | [] => s
  | (t0, t1) :: rest =>
    runAcquires maxTokens refillRate (acquire maxTokens refillRate s t0 t1) rest

/-- A call schedule is valid when each call enters no earlier than the last
refill, and its wake time is at least the computed wait after its entry
(this is exactly what `Date.now()` monotonicity and `setTimeout` give). -/
def ValidSchedule (maxTokens refillRate : ℚ) (s : RateLimiterState) :
    List (ℚ × ℚ) → Prop
  | [] => True
  | (t0, t1) :: rest =>
    s.lastRefill ≤ t0 ∧ t0 ≤ t1 ∧
    ((refill maxTokens refillRate s t0).tokens < 1 →
      t0 + acquireWait refillRate (refill maxTokens refillRate s t0).tokens ≤ t1) ∧
    ValidSchedule maxTokens refillRate (acquire maxTokens refillRate s t0 t1) rest

/-- Every call of the sequence consumes with at least one token available. -/
def ConsumeOk (maxTokens refillRate : ℚ) (s : RateLimiterState) :
    List (ℚ × ℚ) → Prop
  | [] => True
  | (t0, t1) :: rest =>
    1 ≤ tokensAtConsumption maxTokens refillRate s t0 t1 ∧
    ConsumeOk maxTokens refillRate (acquire maxTokens refillRate s t0 t1) rest

/-! ### Response-time score (src/core/search-strategy.ts) -/

/-- `SearchStrategyManager.calculateResponseScore`.  The JavaScript default
`preferredTime || 2000` substitutes 2000 when the argument is absent or 0. -/
def calculateResponseScore (platformResponseTime : ℚ) (preferredTime : Option ℚ) : ℚ :=
  let targetTime :=
    match preferredTime with
    | some p => if p = 0 then 2000 else p
    | none => 2000
  if platformResponseTime ≤ targetTime then 1
  else if targetTime * 3 ≤ platformResponseTime then 1 / 5
  else 1 - (platformResponseTime - targetTime) / (targetTime * 2)

/-! ### Optimal concurrency (src/core/parallel/search-task.ts) -/

structure TaskEstimate where
  latency : ℚ
  reliability : ℚ
deriving DecidableEq, Repr

/-- The number of tasks with `estimate.reliability ≤ 0.7`
(`tasks.length - healthyTasks.length` in the code). -/
def unhealthyCount (tasks : List TaskEstimate) : ℕ :=
  tasks.length - (tasks.filter (fun t => decide ((7 : ℚ) / 10 < t.reliability))).length

/-- The check `unhealthyTasks > tasks.length * 0.3`. -/
def tooManyUnreliable (tasks : List TaskEstimate) : Prop :=
  (tasks.length : ℚ) * (3 / 10) < (unhealthyCount tasks : ℚ)

instance (tasks : List TaskEstimate) : Decidable (tooManyUnreliable tasks) := by
  unfold tooManyUnreliable; infer_instance

/-- The concurrency after the reliability adjustment:
`Math.max(2, Math.floor(concurrency * 0.6))` when too many tasks are
unreliable, else `maxConcurrency` unchanged. -/
def concurrencyAfterReliability (tasks : List TaskEstimate) (maxConcurrency : ℕ) : ℕ :=
  if tooManyUnreliable tasks then
    max 2 (Int.toNat ⌊(maxConcurrency : ℚ) * (6 / 10)⌋)
  else maxConcurrency

/-- `avgEstimatedLatency`: the mean of the tasks' estimated latencies. -/
def avgEstimatedLatency (tasks : List TaskEstimate) : ℚ :=
  (tasks.map (·.latency)).sum / (tasks.length : ℚ)

/-- The concurrency after the latency adjustment:
`Math.min(maxConcurrency, Math.ceil(concurrency * 1.5))` when the average
estimated latency exceeds 5000 ms. -/
def concurrencyAfterLatency (tasks : List TaskEstimate) (maxConcurrency : ℕ) : ℕ :=
  if 5000 < avgEstimatedLatency tasks then
    min maxConcurrency
      (Int.toNat ⌈(concurrencyAfterReliability tasks maxConcurrency : ℚ) * (3 / 2)⌉)
  else concurrencyAfterReliability tasks maxConcurrency

/-- `SearchTaskManager.calculateOptimalConcurrency`:
`Math.max(1, Math.min(concurrency, tasks.length))` after both adjustments. -/
def calculateOptimalConcurrency (tasks : List TaskEstimate) (maxConcurrency : ℕ) : ℕ :=
  max 1 (min (concurrencyAfterLatency tasks maxConcurrency) tasks.length)

/-- Three tasks of reliability 1/2 (all unreliable), zero estimated latency. -/
def unreliableTasks : List TaskEstimate :=
  [⟨0, 1 / 2⟩, ⟨0, 1 / 2⟩, ⟨0, 1 / 2⟩]

/-! ### Result merge and deduplication (src/core/parallel/result-processor.ts)

String normalisation follows the JavaScript methods used by the code:
`toLowerCase`, `trim`, `replace(/[^\w\s]/g, '')`, `replace(/\s+/g, ' ')`.
`\w` without the unicode flag is `[A-Za-z0-9_]`. -/

/-- A character matched by the JavaScript regex class `\s`. -/
def isJsSpace (c : Char) : Bool :=
  c = ' ' || c = '\t' || c = '\n' || c = '\r' || c = '\x0b' || c = '\x0c'

/-- A character matched by the JavaScript regex class `\w`. -/
def isJsWord (c : Char) : Bool :=
  c.isAlphanum || c = '_'

/-- `String.prototype.toLowerCase` (character-wise). -/
def jsToLower (s : String) : String :=
  s.map Char.toLower

/-- `String.prototype.trim`: strip whitespace at both ends. -/
def jsTrim (s : String) : String :=
  ⟨((s.data.dropWhile isJsSpace).reverse.dropWhile isJsSpace).reverse⟩

/-- `replace(/[^\w\s]/g, '')`: drop every character that is neither a word
character nor whitespace. -/
def stripPunct (s : String) : String :=
  ⟨s.data.filter (fun c => isJsWord c || isJsSpace c)⟩

/-- One pass of `replace(/\s+/g, ' ')` on a character list. -/
def collapseWsAux : List Char → List Char
  | [] => []
  | c :: rest =>
    if isJsSpace c then ' ' :: collapseWsAux (rest.dropWhile isJsSpace)
    else c :: collapseWsAux rest
termination_by l => l.length
decreasing_by
  · simpa using Nat.lt_succ_of_le (List.IsSuffix.length_le (List.dropWhile_suffix isJsSpace))
  · simp

/-- `replace(/\s+/g, ' ')`: collapse whitespace runs to single spaces. -/
def collapseWs (s : String) : String :=
  ⟨collapseWsAux s.data⟩

/-- `ResultProcessor.createTitleKey`:
`title.toLowerCase().trim().replace(/[^\w\s]/g, '').replace(/\s+/g, ' ')`. -/
def createTitleKey (title : String) : String :=
  collapseWs (stripPunct (jsTrim (jsToLower title)))

structure Author where
  name : String
deriving DecidableEq, Repr

/-- The fields of `Paper` that `ResultProcessor` inspects.  Optional fields
are `Option`; JavaScript truthiness of the optional strings and the
optional number is modelled by `truthyStr` / `truthyNat`. -/
structure Paper where
  doi : Option String
  title : String
  authors : List Author
  abstract : Option String
  keywords : Option (List String)
  citationCount : Option ℕ
  fullTextAvailable : Bool
deriving DecidableEq, Repr

/-- JavaScript truthiness of an optional string (`undefined` and `""` are
falsy). -/
def truthyStr : Option String → Bool
  | some s => decide (s ≠ "")
  | none => false

/-- JavaScript truthiness of an optional number (`undefined` and `0` are
falsy). -/
def truthyNat : Option ℕ → Bool
  | some n => decide (n ≠ 0)
  | none => false

/-- The completeness score computed inside `ResultProcessor.isMoreComplete`:
+10 truthy doi, +5 truthy abstract, +3 truthy citationCount, +2 full text,
+1 per author, +0.5 per keyword (when the keyword list is present). -/
def completenessScore (p : Paper) : ℚ :=
  (if truthyStr p.doi then 10 else 0) +
  (if truthyStr p.abstract then 5 else 0) +
  (if truthyNat p.citationCount then 3 else 0) +
  (if p.fullTextAvailable then 2 else 0) +
  (p.authors.length : ℚ) +
  (match p.keywords with
   | some ks => (ks.length : ℚ) * (1 / 2)
   | none => 0)

/-- `ResultProcessor.isMoreComplete paperA paperB`: strict comparison. -/
def isMoreComplete (paperA paperB : Paper) : Bool :=
  decide (completenessScore paperB < completenessScore paperA)

/-- The deduplication key of a paper: the lowercased/trimmed DOI when the
`doi` field is truthy, else `createTitleKey(title) + "|" + normalised first
author name` (empty author part when the author list is empty). -/
def paperKey (p : Paper) : String :=
  if truthyStr p.doi then jsTrim (jsToLower (p.doi.getD ""))
  else
    let titleKey := createTitleKey p.title
    let authorKey :=
      match p.authors with
      | [] => ""
      | a :: _ => jsTrim (jsToLower a.name)
    titleKey ++ "|" ++ authorKey

/-- A JavaScript `Map` as an insertion-ordered association list:
`set` replaces in place when the key exists, else appends. -/
def mapSet : List (String × Paper) → String → Paper → List (String × Paper)
  | [], k, v => [(k, v)]
  | (k', v') :: rest, k, v =>
    if k' = k then (k, v) :: rest else (k', v') :: mapSet rest k v

/-- `Map.get` (first matching entry). -/
def mapGet (m : List (String × Paper)) (k : String) : Option Paper :=
  (m.find? (fun e => e.1 = k)).map (·.2)

/-- One iteration of the loop in `ResultProcessor.deduplicatePapers`. -/
def dedupStep (m : List (String × Paper)) (p : Paper) : List (String × Paper) :=
  let k := paperKey p
  match mapGet m k with
  | none => mapSet m k p
  | some existing => if isMoreComplete p existing then mapSet m k p else m

/-- `ResultProcessor.deduplicatePapers`: fold the papers through the `seen`
map and return `Array.from(seen.values())`. -/
def deduplicatePapers (papers : List Paper) : List Paper :=
  (papers.foldl dedupStep []).map (·.2)

structure SearchResult where
  papers : List Paper
  total : ℕ
deriving DecidableEq, Repr

/-- A result wrapper as consumed by the merger: only the presence of
`result` matters (`error` and latency fields are not inspected). -/
structure SearchResultWrapper where
  source : String
  result : Option SearchResult
deriving DecidableEq, Repr

/-- The accumulation loop of `mergeAndDeduplicateResults` that pushes the
papers of every wrapper with a (truthy) result. -/
def collectPapers (results : List SearchResultWrapper) : List Paper :=
  results.foldl
    (fun acc w => match w.result with | some r => acc ++ r.papers | none => acc) []

/-- `ResultProcessor.mergeAndDeduplicateResults` (papers and duplicate
count; the `totalBySource` record feeds no claim and is omitted). -/
def mergeAndDeduplicateResults (results : List SearchResultWrapper)
    (enableDeduplication : Bool) : List Paper × ℕ :=
  let allPapers := collectPapers results
  if !enableDeduplication then (allPapers, 0)
  else
    let uniquePapers := deduplicatePapers allPapers
    (uniquePapers, allPapers.length - uniquePapers.length)

/-! Spec-side restatement of the dedup algorithm, following the claim's
words: one survivor per key, the survivor being the paper with the higher
completeness score, ties keeping the first-seen paper; one key per distinct
`paperKey`, in order of first occurrence. -/

/-- The distinct keys of a paper list, in order of first occurrence. -/
def firstKeys : List Paper → List String
  | [] => []
  | p :: rest => paperKey p :: (firstKeys rest).filter (fun k => k ≠ paperKey p)

/-- The survivor for a key: scan the papers with that key, replacing the
current best exactly when the newcomer's score is strictly higher. -/
def specBest (key : String) (papers : List Paper) : Option Paper :=
  papers.foldl
    (fun acc p =>
      if paperKey p = key then
        match acc with
        | none => some p
        | some b =>
          if completenessScore b < completenessScore p then some p else some b
      else acc)
    none

/-- The claim's deduplication: the survivor of each key, keys in order of
first occurrence. -/
def specDedup (papers : List Paper) : List Paper :=
  (firstKeys papers).filterMap (fun k => specBest k papers)

/-- The claim's merge: concatenate the papers of all wrappers carrying a
result. -/
def specAllPapers (results : List SearchResultWrapper) : List Paper :=
  (results.filterMap (·.result)).flatMap (·.papers)

/-! ### Smart-parallel execution (src/core/parallel/execution-strategies.ts)

`executeSmartParallel` keeps an `executing` array of promises.  Tasks are
identified by their index `0 … n-1`; `executeSearchTask` never rejects (it
catches every error and resolves with a wrapper), so each task `i` resolves
with its wrapper at an absolute settle time `finish i` (the schedule of the
run).  `Promise.race(executing)` resolves with the first promise of the
array that is already settled when the race starts or, when none is, with
the promise of least settle time (first in array order on ties).  The
removal `executing.findIndex(async p => await p === result)` uses an
`async` predicate, which returns a (truthy) `Promise`, so `findIndex`
always answers `0` and `splice(0, 1)` drops the head of the array,
whichever promise actually settled.  The model advances a clock `time` to
the winner's settle time and records, right after each task start, how many
started tasks have not yet settled (`maxInFlight`). -/

structure SmartState where
  results : List ℕ
  executing : List ℕ
  started : List ℕ
  taskIndex : ℕ
  time : ℕ
  maxInFlight : ℕ
deriving DecidableEq, Repr

/-- The number of started-but-unsettled tasks at clock value `time`. -/
def inFlightCount (finish : ℕ → ℕ) (started : List ℕ) (time : ℕ) : ℕ :=
  (started.filter (fun i => decide (time < finish i))).length

/-- The inner `while (executing.length < maxConcurrency && taskIndex <
tasks.length)` loop that pushes queued tasks into the window.  The loop
starts at most `n - taskIndex` tasks, so fuel `n` always suffices. -/
def fillSlots (n maxC : ℕ) (finish : ℕ → ℕ) : ℕ → SmartState → SmartState
  | 0, s => s
  | fuel + 1, s =>
    if s.executing.length < maxC ∧ s.taskIndex < n then
      let started := s.started ++ [s.taskIndex]
      fillSlots n maxC finish fuel
        { s with
          executing := s.executing ++ [s.taskIndex]
          started := started
          taskIndex := s.taskIndex + 1
          maxInFlight := max s.maxInFlight (inFlightCount finish started s.time) }
    else s

/-- The winner of `Promise.race(executing)` and the clock value at which the
race settles: the first already-settled promise of the array, else the
promise with least settle time. -/
def raceWinner (finish : ℕ → ℕ) (time : ℕ) : List ℕ → ℕ × ℕ
  | [] => (0, time)
  | hd :: tl =>
    match (hd :: tl).find? (fun i => decide (finish i ≤ time)) with
    | some w => (w, time)
    | none =>
      let t' := tl.foldl (fun acc i => min acc (finish i)) (finish hd)
      (((hd :: tl).find? (fun i => decide (finish i = t'))).getD hd, t')

/-- One `await Promise.race` iteration: push the winner's wrapper onto the
results and splice out index 0 of the `executing` array. -/
def raceStep (finish : ℕ → ℕ) (s : SmartState) : SmartState :=
  let (w, t) := raceWinner finish s.time s.executing
  { s with
    results := s.results ++ [w]
    executing := s.executing.tail
    time := t }

/-- The outer `while (taskIndex < tasks.length || executing.length > 0)`
loop, with fuel (the loop performs exactly `n` races when `maxC ≥ 1`, so
`n + 1` fuel is enough for the runs considered). -/
def smartLoop (n maxC : ℕ) (finish : ℕ → ℕ) : ℕ → SmartState → SmartState
  | 0, s => s
  | fuel + 1, s =>
    if s.taskIndex < n ∨ s.executing ≠ [] then
      let s1 := fillSlots n maxC finish n s
      let s2 := if s1.executing = [] then s1 else raceStep finish s1
      smartLoop n maxC finish fuel s2
    else s

/-- `ExecutionStrategies.executeSmartParallel` on `n` tasks with window
`maxC`, under the settle schedule `finish`. -/
def executeSmartParallel (n maxC : ℕ) (finish : ℕ → ℕ) : SmartState :=
  smartLoop n maxC finish (n + 1)
    { results := [], executing := [], started := [], taskIndex := 0
      time := 0, maxInFlight := 0 }

/-! ## Theorems -/

/-- C3: `recordSuccess` zeroes `consecutiveFailures` and sets the flag true
regardless of the prior streak; and after any sequence of
success/failure/reset operations, `consecutiveFailures` equals the trailing
failure streak and `isHealthy` is false exactly when that streak has
reached `MAX_CONSECUTIVE_FAILURES = 3` — so the flag flips at the 3rd
consecutive failure, never earlier, and returns true only through a
success or a reset (no other operation, and no passage of time, touches
it). -/
theorem c3_healthFlag :
    (∀ (m : PlatformPerformanceMetrics) (latency : ℚ),
        (recordSuccess m latency).consecutiveFailures = 0 ∧
        (recordSuccess m latency).isHealthy = true) ∧
    ∀ ops : List HealthOp,
      (runOps ops).consecutiveFailures = trailingFailures ops ∧
      (runOps ops).isHealthy = decide (trailingFailures ops < MAX_CONSECUTIVE_FAILURES) := by
  refine ⟨fun m latency => ⟨rfl, rfl⟩, ?_⟩
  intro ops
  induction ops using List.reverseRecOn with
  | nil => exact ⟨rfl, rfl⟩
  | append_singleton l op ih =>
    rcases ih with ⟨ih1, ih2⟩
    have hrun : runOps (l ++ [op]) = applyOp (runOps l) op := by
      simp [runOps, List.foldl_append]
    cases op with
    | success latency =>
      have ht : trailingFailures (l ++ [HealthOp.success latency]) = 0 := by
        unfold trailingFailures
        rw [List.reverse_append]
        rfl
      rw [hrun, ht]
      exact ⟨rfl, rfl⟩
    | reset =>
      have ht : trailingFailures (l ++ [HealthOp.reset]) = 0 := by
        unfold trailingFailures
        rw [List.reverse_append]
        rfl
      rw [hrun, ht]
      exact ⟨rfl, rfl⟩
    | failure =>
      have ht : trailingFailures (l ++ [HealthOp.failure]) = trailingFailures l + 1 := by
        unfold trailingFailures
        rw [List.reverse_append]
        rfl
      rw [hrun, ht]
      constructor
      · have hcf : (applyOp (runOps l) HealthOp.failure).consecutiveFailures =
            (runOps l).consecutiveFailures + 1 := rfl
        rw [hcf, ih1]
      · have hih : (applyOp (runOps l) HealthOp.failure).isHealthy =
            (if MAX_CONSECUTIVE_FAILURES ≤ (runOps l).consecutiveFailures + 1 then false
             else (runOps l).isHealthy) := rfl
        rw [hih, ih1, ih2]
        by_cases h : MAX_CONSECUTIVE_FAILURES ≤ trailingFailures l + 1
        · rw [if_pos h]
          symm
          simp only [decide_eq_false_iff_not]
          unfold MAX_CONSECUTIVE_FAILURES at h ⊢
          omega
        · rw [if_neg h, decide_eq_decide]
          unfold MAX_CONSECUTIVE_FAILURES at h ⊢
          omega

/-- Helper for C2: when the first `r` attempts fail with retryable errors
and attempt `attempt + r` succeeds, the loop returns that success after
exactly `attempt + r + 1` attempts. -/
theorem retryGo_ok {ε τ : Type} (retryable : ε → Bool) (op : ℕ → Except ε τ) :
    ∀ (r attempt : ℕ) (v : τ),
      (∀ i, i < r → ∃ e, op (attempt + i) = .error e ∧ retryable e = true) →
      op (attempt + r) = .ok v →
      retryGo retryable op attempt r = ⟨.ok v, attempt + r + 1⟩ := by
  intro r
  induction r with
  | zero =>
    intro attempt v _ hok
    simp only [Nat.add_zero] at hok
    simp [retryGo, hok]
  | succ r ih =>
    intro attempt v hpre hok
    obtain ⟨e, he, hr⟩ := hpre 0 (Nat.succ_pos r)
    simp only [Nat.add_zero] at he
    have step : retryGo retryable op attempt (r + 1) = retryGo retryable op (attempt + 1) r := by
      simp [retryGo, he, hr]
    rw [step]
    have hpre' : ∀ i, i < r → ∃ e', op (attempt + 1 + i) = .error e' ∧ retryable e' = true := by
      intro i hi
      have := hpre (i + 1) (by omega)
      simpa [Nat.add_assoc, Nat.add_comm 1 i] using this
    have hok' : op (attempt + 1 + r) = .ok v := by
      have : attempt + 1 + r = attempt + (r + 1) := by omega
      rw [this]; exact hok
    have := ih (attempt + 1) v hpre' hok'
    rw [this]
    congr 1
    omega

/-- Helper for C2: every error outcome of the loop is the error of some
attempt `attempt + j` with `j ≤ r`, returned after `attempt + j + 1`
attempts, where either that error is not retryable or the budget is
exhausted (`j = r`), and every earlier attempt failed with a retryable
error. -/
theorem retryGo_error {ε τ : Type} (retryable : ε → Bool) (op : ℕ → Except ε τ) :
    ∀ (r attempt : ℕ) (e : ε) (k : ℕ),
      retryGo retryable op attempt r = ⟨.error e, k⟩ →
      ∃ j, j ≤ r ∧ k = attempt + j + 1 ∧ op (attempt + j) = .error e ∧
        (retryable e = false ∨ j = r) ∧
        ∀ i, i < j → ∃ e', op (attempt + i) = .error e' ∧ retryable e' = true := by
  intro r
  induction r with
  | zero =>
    intro attempt e k h
    cases hop : op attempt with
    | ok v => simp [retryGo, hop] at h
    | error e' =>
      simp only [retryGo, hop, RetryOutcome.mk.injEq, Except.error.injEq] at h
      obtain ⟨he, hk⟩ := h
      refine ⟨0, Nat.le_refl 0, by omega, ?_, Or.inr rfl,
        fun i hi => absurd hi (Nat.not_lt_zero i)⟩
      rw [Nat.add_zero, hop, he]
  | succ r ih =>
    intro attempt e k h
    cases hop : op attempt with
    | ok v => simp [retryGo, hop] at h
    | error e' =>
      by_cases hr : retryable e' = true
      · have step : retryGo retryable op attempt (r + 1) =
            retryGo retryable op (attempt + 1) r := by
          simp [retryGo, hop, hr]
        rw [step] at h
        obtain ⟨j, hj, hk, hoj, hor, hpre⟩ := ih (attempt + 1) e k h
        refine ⟨j + 1, by omega, by omega, ?_, ?_, ?_⟩
        · have harr : attempt + (j + 1) = attempt + 1 + j := by omega
          rw [harr]; exact hoj
        · rcases hor with h1 | h2
          · exact Or.inl h1
          · exact Or.inr (by omega)
        · intro i hi
          cases i with
          | zero => exact ⟨e', by simpa using hop, hr⟩
          | succ i' =>
            obtain ⟨e'', he'', hr''⟩ := hpre i' (by omega)
            refine ⟨e'', ?_, hr''⟩
            have harr : attempt + (i' + 1) = attempt + 1 + i' := by omega
            rw [harr]; exact he''
      · have step : retryGo retryable op attempt (r + 1) =
            ⟨.error e', attempt + 1⟩ := by
          simp [retryGo, hop, hr]
        rw [step] at h
        simp only [RetryOutcome.mk.injEq, Except.error.injEq] at h
        obtain ⟨he, hk⟩ := h
        refine ⟨0, by omega, by omega, ?_, ?_, fun i hi => absurd hi (Nat.not_lt_zero i)⟩
        · rw [Nat.add_zero, hop, he]
        · exact Or.inl (by rw [← he]; exact Bool.not_eq_true _ ▸ (eq_false_of_ne_true hr))

/-- Helper for C2, converse direction: when attempt `attempt + j` fails
with an error that is not retryable or hits the budget (`j = r`), and all
earlier attempts failed with retryable errors, the loop rethrows that
error after `attempt + j + 1` attempts. -/
theorem retryGo_error_intro {ε τ : Type} (retryable : ε → Bool) (op : ℕ → Except ε τ) :
    ∀ (r attempt j : ℕ) (e : ε),
      j ≤ r → op (attempt + j) = .error e → (retryable e = false ∨ j = r) →
      (∀ i, i < j → ∃ e', op (attempt + i) = .error e' ∧ retryable e' = true) →
      retryGo retryable op attempt r = ⟨.error e, attempt + j + 1⟩ := by
  intro r
  induction r with
  | zero =>
    intro attempt j e hj hop _ _
    have hj0 : j = 0 := Nat.le_zero.mp hj
    subst hj0
    rw [Nat.add_zero] at hop
    simp [retryGo, hop]
  | succ r ih =>
    intro attempt j e hj hop hstop hpre
    cases j with
    | zero =>
      rw [Nat.add_zero] at hop
      have hnr : retryable e = false := by
        rcases hstop with h1 | h2
        · exact h1
        · exact absurd h2.symm (Nat.succ_ne_zero r)
      simp [retryGo, hop, hnr]
    | succ j' =>
      obtain ⟨e0, he0, hr0⟩ := hpre 0 (Nat.succ_pos j')
      rw [Nat.add_zero] at he0
      have step : retryGo retryable op attempt (r + 1) =
          retryGo retryable op (attempt + 1) r := by
        simp [retryGo, he0, hr0]
      rw [step]
      have hop' : op (attempt + 1 + j') = .error e := by
        have harr : attempt + 1 + j' = attempt + (j' + 1) := by omega
        rw [harr]; exact hop
      have hstop' : retryable e = false ∨ j' = r := by
        rcases hstop with h1 | h2
        · exact Or.inl h1
        · exact Or.inr (by omega)
      have hpre' : ∀ i, i < j' → ∃ e', op (attempt + 1 + i) = .error e' ∧
          retryable e' = true := by
        intro i hi
        obtain ⟨e'', he'', hr''⟩ := hpre (i + 1) (by omega)
        refine ⟨e'', ?_, hr''⟩
        have harr : attempt + 1 + i = attempt + (i + 1) := by omega
        rw [harr]; exact he''
      have := ih (attempt + 1) j' e (by omega) hop' hstop' hpre'
      rw [this]
      congr 1
      omega

/-- C2: `executeWithRetry` returns the success outcome after exactly
`maxRetries + 1` attempts when every one of the first `maxRetries` attempts
fails with a retryable error and the final attempt succeeds; and it
rethrows an error exactly when that error is not retryable or the retry
budget is exhausted — every rethrown error is the error of the last
attempt made, with all earlier attempts having failed retryably, and
conversely any such run rethrows. -/
theorem c2_executeWithRetry {ε τ : Type} (retryable : ε → Bool) (maxRetries : ℕ)
    (op : ℕ → Except ε τ) :
    (∀ v : τ,
      (∀ i, i < maxRetries → ∃ e, op i = .error e ∧ retryable e = true) →
      op maxRetries = .ok v →
      executeWithRetry retryable maxRetries op = ⟨.ok v, maxRetries + 1⟩) ∧
    (∀ (e : ε) (k : ℕ),
      executeWithRetry retryable maxRetries op = ⟨.error e, k⟩ →
      ∃ j, j ≤ maxRetries ∧ k = j + 1 ∧ op j = .error e ∧
        (retryable e = false ∨ j = maxRetries) ∧
        ∀ i, i < j → ∃ e', op i = .error e' ∧ retryable e' = true) ∧
    (∀ (e : ε) (j : ℕ),
      j ≤ maxRetries → op j = .error e → (retryable e = false ∨ j = maxRetries) →
      (∀ i, i < j → ∃ e', op i = .error e' ∧ retryable e' = true) →
      executeWithRetry retryable maxRetries op = ⟨.error e, j + 1⟩) := by
  refine ⟨fun v hpre hok => ?_, fun e k h => ?_, fun e j hj hop hstop hpre => ?_⟩
  · have := retryGo_ok retryable op maxRetries 0 v (by simpa using hpre) (by simpa using hok)
    simpa [executeWithRetry] using this
  · have := retryGo_error retryable op maxRetries 0 e k (by simpa [executeWithRetry] using h)
    simpa using this
  · have := retryGo_error_intro retryable op maxRetries 0 j e hj (by simpa using hop) hstop
      (by simpa using hpre)
    simpa [executeWithRetry] using this

/-- C2 (witness): with all errors retryable, two failing attempts followed
by a success at attempt index 2 (= maxRetries) return the success with 3
attempts. -/
theorem c2_witness :
    executeWithRetry (fun _ : ℕ => true) 2
      (fun i => if i < 2 then Except.error 0 else Except.ok 7) =
    ⟨Except.ok 7, 3⟩ :=
  (c2_executeWithRetry (fun _ : ℕ => true) 2
    (fun i => if i < 2 then Except.error 0 else Except.ok 7)).1 7
    (fun i hi => ⟨0, by simp [hi], rfl⟩) (by norm_num)

/-- Helper for C4: a single `acquire` under a valid timing keeps the token
count in `[0, maxTokens]` and consumes with at least one token available,
provided `maxTokens ≥ 1`. -/
theorem acquire_step (maxT rate : ℚ) (hmax : 1 ≤ maxT) (hrate : 0 < rate)
    (s : RateLimiterState) (t0 t1 : ℚ)
    (hlo : 0 ≤ s.tokens) (hhi : s.tokens ≤ maxT)
    (ht0 : s.lastRefill ≤ t0) (ht01 : t0 ≤ t1)
    (hwait : (refill maxT rate s t0).tokens < 1 →
      t0 + acquireWait rate (refill maxT rate s t0).tokens ≤ t1) :
    (0 ≤ (acquire maxT rate s t0 t1).tokens ∧
      (acquire maxT rate s t0 t1).tokens ≤ maxT) ∧
    1 ≤ tokensAtConsumption maxT rate s t0 t1 := by
  have hs1lo : 0 ≤ (refill maxT rate s t0).tokens := by
    simp only [refill]
    refine le_min (by linarith) ?_
    have h1 : 0 ≤ (t0 - s.lastRefill) / 1000 * rate := by
      apply mul_nonneg (div_nonneg (by linarith) (by norm_num)) (le_of_lt hrate)
    linarith
  have hs1hi : (refill maxT rate s t0).tokens ≤ maxT := min_le_left _ _
  by_cases hw : (refill maxT rate s t0).tokens < 1
  · have hT : t0 + (1 - (refill maxT rate s t0).tokens) / rate * 1000 ≤ t1 := hwait hw
    have hadd : 1 - (refill maxT rate s t0).tokens ≤ (t1 - t0) / 1000 * rate := by
      have h1 : (1 - (refill maxT rate s t0).tokens) / rate * 1000 ≤ t1 - t0 := by
        linarith
      have h2 : (1 - (refill maxT rate s t0).tokens) / rate * 1000 / 1000 * rate ≤
          (t1 - t0) / 1000 * rate := by
        apply mul_le_mul_of_nonneg_right _ (le_of_lt hrate)
        apply div_le_div_of_nonneg_right h1 (by norm_num)
      calc 1 - (refill maxT rate s t0).tokens =
            (1 - (refill maxT rate s t0).tokens) / rate * 1000 / 1000 * rate := by
            field_simp
            ring
        _ ≤ (t1 - t0) / 1000 * rate := h2
    have houter : (refill maxT rate (refill maxT rate s t0) t1).tokens =
        min maxT ((refill maxT rate s t0).tokens + (t1 - t0) / 1000 * rate) := rfl
    have hs2 : 1 ≤ (refill maxT rate (refill maxT rate s t0) t1).tokens := by
      rw [houter]
      exact le_min hmax (by linarith)
    have hs2hi : (refill maxT rate (refill maxT rate s t0) t1).tokens ≤ maxT := by
      rw [houter]; exact min_le_left _ _
    have hacq : acquire maxT rate s t0 t1 =
        ⟨(refill maxT rate (refill maxT rate s t0) t1).tokens - 1,
         (refill maxT rate (refill maxT rate s t0) t1).lastRefill⟩ := by
      simp only [acquire, if_pos hw]
    have hcons : tokensAtConsumption maxT rate s t0 t1 =
        (refill maxT rate (refill maxT rate s t0) t1).tokens := by
      simp only [tokensAtConsumption, if_pos hw]
    rw [hacq, hcons]
    refine ⟨⟨?_, ?_⟩, hs2⟩
    · show 0 ≤ (refill maxT rate (refill maxT rate s t0) t1).tokens - 1
      linarith
    · show (refill maxT rate (refill maxT rate s t0) t1).tokens - 1 ≤ maxT
      linarith
  · have h1 : 1 ≤ (refill maxT rate s t0).tokens := le_of_not_lt hw
    have hacq : acquire maxT rate s t0 t1 =
        ⟨(refill maxT rate s t0).tokens - 1, (refill maxT rate s t0).lastRefill⟩ := by
      simp only [acquire, if_neg hw]
    have hcons : tokensAtConsumption maxT rate s t0 t1 =
        (refill maxT rate s t0).tokens := by
      simp only [tokensAtConsumption, if_neg hw]
    rw [hacq, hcons]
    refine ⟨⟨?_, ?_⟩, h1⟩
    · show 0 ≤ (refill maxT rate s t0).tokens - 1
      linarith
    · show (refill maxT rate s t0).tokens - 1 ≤ maxT
      linarith

/-- C4 (counterexample): the claim quantifies over every `maxTokens > 0`,
but with `maxTokens = 1/2` (and `refillRate = 1`) a single `acquire` that
waits exactly the computed wait time consumes at a moment when only 1/2
token is available and drives the token count to −1/2: the count does not
stay in `[0, maxTokens]` and no full token was available at consumption. -/
theorem c4_counterexample :
    (0 : ℚ) < 1 / 2 ∧ (0 : ℚ) < 1 ∧
    (RateLimiter.init (1 / 2) 0).tokens = 1 / 2 ∧
    (0 : ℚ) + acquireWait 1 (refill (1 / 2) 1 (RateLimiter.init (1 / 2) 0) 0).tokens ≤ 500 ∧
    tokensAtConsumption (1 / 2) 1 (RateLimiter.init (1 / 2) 0) 0 500 < 1 ∧
    (acquire (1 / 2) 1 (RateLimiter.init (1 / 2) 0) 0 500).tokens < 0 := by
  norm_num [RateLimiter.init, acquire, refill, acquireWait, tokensAtConsumption]

/-- C4 (amended): for every rate limiter with `maxTokens ≥ 1` and
`refillRate > 0`, and every sequence of `acquire` calls under a valid
timing schedule (monotone clock, `setTimeout` waking no earlier than the
computed wait), the token count stays in `[0, maxTokens]` after every
call, and every call consumes at a moment when at least one token is
available.  (The bound `maxTokens ≥ 1` is necessary: see the
counterexample with `maxTokens = 1/2`.) -/
theorem c4_rateLimiter_amended (maxT rate : ℚ) (hmax : 1 ≤ maxT) (hrate : 0 < rate) :
    ∀ (calls : List (ℚ × ℚ)) (s : RateLimiterState),
      0 ≤ s.tokens → s.tokens ≤ maxT →
      ValidSchedule maxT rate s calls →
      (0 ≤ (runAcquires maxT rate s calls).tokens ∧
        (runAcquires maxT rate s calls).tokens ≤ maxT) ∧
      ConsumeOk maxT rate s calls := by
  intro calls
  induction calls with
  | nil => exact fun s hlo hhi _ => ⟨⟨hlo, hhi⟩, trivial⟩
  | cons call rest ih =>
    intro s hlo hhi hval
    obtain ⟨t0, t1⟩ := call
    obtain ⟨h1, h2, h3, h4⟩ := hval
    obtain ⟨⟨hlo', hhi'⟩, hcons⟩ :=
      acquire_step maxT rate hmax hrate s t0 t1 hlo hhi h1 h2 h3
    obtain ⟨hrest, hrestok⟩ := ih (acquire maxT rate s t0 t1) hlo' hhi' h4
    exact ⟨hrest, hcons, hrestok⟩

/-- C4 (witness for the amended theorem): `maxTokens = 2`, `refillRate = 1`,
three calls — two immediate, one that waits 1000 ms for a refill. -/
theorem c4_amended_witness :
    (0 ≤ (runAcquires 2 1 ⟨2, 0⟩ [(0, 0), (0, 0), (0, 1000)]).tokens ∧
      (runAcquires 2 1 ⟨2, 0⟩ [(0, 0), (0, 0), (0, 1000)]).tokens ≤ 2) ∧
    ConsumeOk 2 1 ⟨2, 0⟩ [(0, 0), (0, 0), (0, 1000)] :=
  c4_rateLimiter_amended 2 1 (by norm_num) (by norm_num)
    [(0, 0), (0, 0), (0, 1000)] ⟨2, 0⟩ (by norm_num) (by norm_num)
    (by norm_num [ValidSchedule, acquire, refill, acquireWait])

/-- C5: with two tasks under the smart-parallel strategy, window 2, where
task 1 settles (at time 5) before task 0 (at time 10), the run returns the
wrapper of task 1 twice and the wrapper of task 0 never: the
`findIndex(async p => await p === result)` predicate is an `async`
function, hence always truthy, so `splice` removes the head of the
`executing` array (task 0's still-pending promise) instead of the settled
promise, and the next `Promise.race` resolves again with task 1's
already-settled promise.  The wrapper count still equals the task count,
but task 0's outcome does not appear exactly once. -/
theorem c5_smartParallel_duplicates :
    (executeSmartParallel 2 2 (fun i => [10, 5].getD i 0)).results = [1, 1] ∧
    ((executeSmartParallel 2 2 (fun i => [10, 5].getD i 0)).results.count 0 = 0 ∧
     (executeSmartParallel 2 2 (fun i => [10, 5].getD i 0)).results.count 1 = 2) := by
  constructor
  · rfl
  · constructor <;> rfl

/-- C6: with four tasks, window 2 and settle times 1000, 10, 20, 30, the
faulty head-splice evicts task 0's still-running promise from the
`executing` array, so after the second race the loop starts task 3 while
tasks 0 and 2 are still in flight: three started-but-unsettled tasks at
once, exceeding the computed bound 2. -/
theorem c6_smartParallel_inflight :
    2 < (executeSmartParallel 4 2 (fun i => [1000, 10, 20, 30].getD i 0)).maxInFlight := by
  decide

/-- C8 (counterexample): on a platform with one consecutive failure and a
perfect success rate, the returned `initialDelay` is 2000 ms, not the base
initial delay (1000 ms) scaled by `consecutiveFailures` (which would be
1000 ms). -/
theorem c8_counterexample :
    (getRetryStrategy { initMetrics with consecutiveFailures := 1 }).initialDelay = 2000 ∧
    (2000 : ℚ) ≠ 1000 * (1 : ℕ) := by
  constructor
  · norm_num [getRetryStrategy, initMetrics]
  · norm_num

/-- C8 (amended): `getRetryStrategy` returns the base policy
{maxRetries 3, initialDelay 1000 ms, maxDelay 10000 ms, backoffMultiplier 2};
when `successRate < 0.7` it returns `maxRetries = 2` and `maxDelay = 5000`;
and when `consecutiveFailures > 0` the returned `initialDelay` is
2000 ms scaled by `consecutiveFailures`. -/
theorem c8_getRetryStrategy_amended (m : PlatformPerformanceMetrics) :
    (getRetryStrategy m).maxRetries = (if m.successRate < 7 / 10 then 2 else 3) ∧
    (getRetryStrategy m).maxDelay = (if m.successRate < 7 / 10 then 5000 else 10000) ∧
    (getRetryStrategy m).backoffMultiplier = 2 ∧
    (getRetryStrategy m).initialDelay =
      (if 0 < m.consecutiveFailures then 2000 * (m.consecutiveFailures : ℚ) else 1000) := by
  unfold getRetryStrategy
  by_cases h1 : m.successRate < 7 / 10 <;> by_cases h2 : 0 < m.consecutiveFailures <;>
    simp [h1, h2]

/-- C9 (counterexample): with the default target of 2000 ms, a response time
of 5800 ms scores 1/20, strictly below the claimed 0.2 floor. -/
theorem c9_counterexample :
    calculateResponseScore 5800 none = 1 / 20 ∧ (1 / 20 : ℚ) < 1 / 5 := by
  constructor
  · norm_num [calculateResponseScore]
  · norm_num

/-- C9 (amended): the response-time score is 1.0 at or under the target,
0.2 at or beyond 3× the target, and in between equals
`1 - (rt - target)/(2·target)`, a linear decay from 1.0 toward 0 (not 0.2):
it stays at or above 0.2 only up to 2.6× the target and drops strictly
below 0.2 beyond that, so 0.2 is not a floor on the open middle segment. -/
theorem c9_responseScore_amended (rt t : ℚ) (ht : 0 < t) :
    (rt ≤ t → calculateResponseScore rt (some t) = 1) ∧
    (t * 3 ≤ rt → calculateResponseScore rt (some t) = 1 / 5) ∧
    (t < rt → rt < t * 3 →
      calculateResponseScore rt (some t) = 1 - (rt - t) / (t * 2) ∧
      (rt ≤ 13 / 5 * t → 1 / 5 ≤ calculateResponseScore rt (some t)) ∧
      (13 / 5 * t < rt → calculateResponseScore rt (some t) < 1 / 5)) := by
  have ht' : t ≠ 0 := ne_of_gt ht
  have h2t : 0 < t * 2 := by linarith
  unfold calculateResponseScore
  simp only [ht', if_false]
  refine ⟨fun h => by simp [h], fun h => ?_, fun hlo hhi => ?_⟩
  · have hn : ¬ rt ≤ t := by linarith
    simp [hn, h]
  · have hn : ¬ rt ≤ t := not_le_of_gt hlo
    have hn3 : ¬ t * 3 ≤ rt := not_le_of_gt hhi
    rw [if_neg hn, if_neg hn3]
    have key : 1 - (rt - t) / (t * 2) - 1 / 5 = (13 / 5 * t - rt) / (t * 2) := by
      field_simp; ring
    refine ⟨rfl, fun h => ?_, fun h => ?_⟩
    · rw [← sub_nonneg, key]
      exact div_nonneg (by linarith) (le_of_lt h2t)
    · rw [← sub_neg, key]
      exact div_neg_of_neg_of_pos (by linarith) h2t

/-- C9 (witness for the amended theorem): at response time 5000 ms and
target 2000 ms the score follows the linear formula and is ≥ 0.2. -/
theorem c9_amended_witness :
    calculateResponseScore 5000 (some 2000) = 1 - (5000 - 2000) / (2000 * 2) ∧
    (1 / 5 : ℚ) ≤ calculateResponseScore 5000 (some 2000) := by
  have h := c9_responseScore_amended 5000 2000 (by norm_num)
  have h3 := h.2.2 (by norm_num) (by norm_num)
  exact ⟨h3.1, h3.2.1 (by norm_num)⟩

/-- C10: a platform on which no request has been recorded gets the record
{successCount 0, totalRequests 0, successRate 1, averageLatency 0,
isHealthy true}; the health check answers true on it; its scheduling
priority is the maximal value 100; and every platform with a recorded
positive average latency (and a success rate ≤ 1) gets a strictly smaller
priority, hence sorts behind it in the descending priority order. -/
theorem c10_freshPlatform :
    initMetrics.successCount = 0 ∧ initMetrics.totalRequests = 0 ∧
    initMetrics.successRate = 1 ∧ initMetrics.averageLatency = 0 ∧
    initMetrics.isHealthy = true ∧ isHealthyCheck initMetrics = true ∧
    taskPriority initMetrics = 100 ∧
    ∀ m : PlatformPerformanceMetrics, m.successRate ≤ 1 → 0 < m.averageLatency →
      taskPriority m < taskPriority initMetrics := by
  refine ⟨rfl, rfl, rfl, rfl, rfl, by norm_num [isHealthyCheck, initMetrics],
    by norm_num [taskPriority, initMetrics], ?_⟩
  intro m h1 h2
  have hr : m.successRate * 100 ≤ 100 := by linarith
  have hl : 0 < m.averageLatency / 10 := by positivity
  simp only [taskPriority, initMetrics]
  norm_num
  linarith

/-- C7 (counterexample): for three tasks of reliability 1/2 and
`maxConcurrency = 1`, the reliability branch sets the concurrency to
`max(2, floor(0.6)) = 2`, which survives the final clamp
(`max(1, min(2, 3)) = 2`) and exceeds `min(maxConcurrency, taskCount) = 1`. -/
theorem c7_counterexample :
    calculateOptimalConcurrency unreliableTasks 1 = 2 ∧
    ¬ calculateOptimalConcurrency unreliableTasks 1 ≤ min 1 unreliableTasks.length := by
  have hu : unhealthyCount unreliableTasks = 3 := by
    simp [unhealthyCount, unreliableTasks]
    norm_num
  have ht : tooManyUnreliable unreliableTasks := by
    rw [tooManyUnreliable, hu]
    norm_num [unreliableTasks]
  have hc1 : concurrencyAfterReliability unreliableTasks 1 = 2 := by
    rw [concurrencyAfterReliability, if_pos ht]
    norm_num [Int.toNat]
  have havg : avgEstimatedLatency unreliableTasks = 0 := by
    simp [avgEstimatedLatency, unreliableTasks]
  have hc2 : concurrencyAfterLatency unreliableTasks 1 = 2 := by
    rw [concurrencyAfterLatency, if_neg (by rw [havg]; norm_num), hc1]
  have hres : calculateOptimalConcurrency unreliableTasks 1 = 2 := by
    rw [calculateOptimalConcurrency, hc2]
    rfl
  exact ⟨hres, by rw [hres]; decide⟩

/-- C7 (amended): for a non-empty task list, `calculateOptimalConcurrency`
returns a value in `[1, min(max(2, maxConcurrency), taskCount)]` — the
result can exceed `maxConcurrency` (up to 2) when `floor(0.6·maxConcurrency)
< 2`.  When more than 30% of the tasks have reliability ≤ 0.7 the
pre-clamp concurrency becomes `max(2, floor(0.6·maxConcurrency))` (else it
stays `maxConcurrency`); when the average estimated latency exceeds 5000 ms
it becomes `min(maxConcurrency, ceil(1.5·current))`, capped at
`maxConcurrency`; the final result is `max(1, min(current, taskCount))`. -/
theorem c7_calculateOptimalConcurrency_amended (tasks : List TaskEstimate)
    (maxConcurrency : ℕ) (hn : 1 ≤ tasks.length) :
    1 ≤ calculateOptimalConcurrency tasks maxConcurrency ∧
    calculateOptimalConcurrency tasks maxConcurrency ≤
      min (max 2 maxConcurrency) tasks.length ∧
    (tooManyUnreliable tasks →
      concurrencyAfterReliability tasks maxConcurrency =
        max 2 (Int.toNat ⌊(maxConcurrency : ℚ) * (6 / 10)⌋)) ∧
    (¬ tooManyUnreliable tasks →
      concurrencyAfterReliability tasks maxConcurrency = maxConcurrency) ∧
    (5000 < avgEstimatedLatency tasks →
      concurrencyAfterLatency tasks maxConcurrency =
        min maxConcurrency
          (Int.toNat ⌈(concurrencyAfterReliability tasks maxConcurrency : ℚ) * (3 / 2)⌉) ∧
      concurrencyAfterLatency tasks maxConcurrency ≤ maxConcurrency) ∧
    (¬ 5000 < avgEstimatedLatency tasks →
      concurrencyAfterLatency tasks maxConcurrency =
        concurrencyAfterReliability tasks maxConcurrency) ∧
    calculateOptimalConcurrency tasks maxConcurrency =
      max 1 (min (concurrencyAfterLatency tasks maxConcurrency) tasks.length) := by
  have hfloor : Int.toNat ⌊(maxConcurrency : ℚ) * (6 / 10)⌋ ≤ maxConcurrency := by
    have h1 : (maxConcurrency : ℚ) * (6 / 10) ≤ (maxConcurrency : ℚ) := by
      have : (0 : ℚ) ≤ (maxConcurrency : ℚ) := Nat.cast_nonneg _
      linarith
    have h2 : ⌊(maxConcurrency : ℚ) * (6 / 10)⌋ ≤ ⌊(maxConcurrency : ℚ)⌋ :=
      Int.floor_le_floor h1
    have h3 : ⌊(maxConcurrency : ℚ)⌋ = (maxConcurrency : ℤ) := Int.floor_natCast _
    omega
  have hc1 : concurrencyAfterReliability tasks maxConcurrency ≤ max 2 maxConcurrency := by
    unfold concurrencyAfterReliability
    split
    · exact max_le_max_left 2 hfloor
    · exact le_max_right _ _
  have hc2 : concurrencyAfterLatency tasks maxConcurrency ≤ max 2 maxConcurrency := by
    unfold concurrencyAfterLatency
    split
    · exact le_trans (min_le_left _ _) (le_max_right _ _)
    · exact hc1
  refine ⟨le_max_left _ _, ?_, fun h => by simp [concurrencyAfterReliability, h],
    fun h => by simp [concurrencyAfterReliability, h],
    fun h => ⟨by simp [concurrencyAfterLatency, h], ?_⟩,
    fun h => by simp [concurrencyAfterLatency, h], rfl⟩
  · unfold calculateOptimalConcurrency
    omega
  · simp only [concurrencyAfterLatency, if_pos h]
    exact min_le_left _ _

/-- C7 (witness for the amended theorem): three unreliable tasks with
`maxConcurrency = 4` give a result within the amended bounds and the
reliability branch value `max(2, floor(2.4)) = 2`. -/
theorem c7_amended_witness :
    1 ≤ calculateOptimalConcurrency unreliableTasks 4 ∧
    calculateOptimalConcurrency unreliableTasks 4 ≤
      min (max 2 4) unreliableTasks.length ∧
    (tooManyUnreliable unreliableTasks →
      concurrencyAfterReliability unreliableTasks 4 =
        max 2 (Int.toNat ⌊(4 : ℚ) * (6 / 10)⌋)) ∧
    (¬ tooManyUnreliable unreliableTasks →
      concurrencyAfterReliability unreliableTasks 4 = 4) ∧
    (5000 < avgEstimatedLatency unreliableTasks →
      concurrencyAfterLatency unreliableTasks 4 =
        min 4 (Int.toNat
          ⌈(concurrencyAfterReliability unreliableTasks 4 : ℚ) * (3 / 2)⌉) ∧
      concurrencyAfterLatency unreliableTasks 4 ≤ 4) ∧
    (¬ 5000 < avgEstimatedLatency unreliableTasks →
      concurrencyAfterLatency unreliableTasks 4 =
        concurrencyAfterReliability unreliableTasks 4) ∧
    calculateOptimalConcurrency unreliableTasks 4 =
      max 1 (min (concurrencyAfterLatency unreliableTasks 4) unreliableTasks.length) :=
  c7_calculateOptimalConcurrency_amended unreliableTasks 4 (by decide)

/-- Helper for C1: the accumulation loop of the merger concatenates the
papers of the wrappers carrying a result. -/
theorem collectPapers_eq (results : List SearchResultWrapper) :
    collectPapers results = specAllPapers results := by
  suffices h : ∀ (rs : List SearchResultWrapper) (acc : List Paper),
      rs.foldl (fun acc w => match w.result with | some r => acc ++ r.papers | none => acc) acc
        = acc ++ specAllPapers rs by
    simpa using h results []
  intro rs
  induction rs with
  | nil => intro acc; simp [specAllPapers]
  | cons w rest ih =>
    intro acc
    cases hw : w.result with
    | some r =>
      simp [hw, ih, specAllPapers, List.filterMap_cons]
    | none =>
      simp [hw, ih, specAllPapers, List.filterMap_cons]

/-- Helper for C1: `Map.get` on a cons cell. -/
theorem mapGet_cons (k₀ : String) (v₀ : Paper) (rest : List (String × Paper)) (k : String) :
    mapGet ((k₀, v₀) :: rest) k = if k₀ = k then some v₀ else mapGet rest k := by
  by_cases h : k₀ = k
  · rw [mapGet, List.find?_cons_of_pos _ (by simpa using h), if_pos h]
    rfl
  · rw [mapGet, List.find?_cons_of_neg _ (by simpa using h), if_neg h]
    rfl

/-- Helper for C1: `Map.get` after `Map.set`. -/
theorem mapGet_mapSet (m : List (String × Paper)) (k : String) (v : Paper) (k' : String) :
    mapGet (mapSet m k v) k' = if k = k' then some v else mapGet m k' := by
  induction m with
  | nil =>
    by_cases h : k = k' <;> simp [mapSet, mapGet_cons, mapGet, h]
  | cons head rest ih =>
    obtain ⟨k₀, v₀⟩ := head
    by_cases h0 : k₀ = k
    · subst h0
      rw [mapSet, if_pos rfl]
      by_cases h' : k₀ = k' <;> simp [mapGet_cons, h']
    · rw [mapSet, if_neg h0]
      by_cases h' : k₀ = k'
      · have hkk : ¬ k = k' := fun hh => h0 (h'.trans hh.symm)
        rw [mapGet_cons, if_pos h', if_neg hkk, mapGet_cons, if_pos h']
      · rw [mapGet_cons, if_neg h', ih, mapGet_cons, if_neg h']

/-- Helper for C1: the key list after `Map.set` — unchanged when the key is
present, extended at the end when it is new. -/
theorem mapSet_keys (m : List (String × Paper)) (k : String) (v : Paper) :
    (mapSet m k v).map Prod.fst =
      if k ∈ m.map Prod.fst then m.map Prod.fst else m.map Prod.fst ++ [k] := by
  induction m with
  | nil => simp [mapSet]
  | cons head rest ih =>
    obtain ⟨k₀, v₀⟩ := head
    by_cases h0 : k₀ = k
    · subst h0
      simp [mapSet]
    · have hne : ¬ k = k₀ := fun hh => h0 hh.symm
      rw [mapSet, if_neg h0]
      by_cases hmem : k ∈ rest.map Prod.fst <;>
        simp [ih, hmem, hne, List.mem_cons]

/-- Helper for C1: `Map.get` answers `none` exactly on absent keys. -/
theorem mapGet_eq_none_iff (m : List (String × Paper)) (k : String) :
    mapGet m k = none ↔ k ∉ m.map Prod.fst := by
  induction m with
  | nil => simp [mapGet]
  | cons head rest ih =>
    obtain ⟨k₀, v₀⟩ := head
    rw [mapGet_cons]
    by_cases h : k₀ = k
    · simp [h]
    · rw [if_neg h, ih]
      constructor
      · intro hnot
        simp only [List.map_cons, List.mem_cons]
        push_neg
        exact ⟨fun hh => h hh.symm, hnot⟩
      · intro hnot
        simp only [List.map_cons, List.mem_cons] at hnot
        push_neg at hnot
        exact hnot.2

/-- Helper for C1: when the keys are distinct, the values of the map are
obtained by looking each key up. -/
theorem map_snd_eq (m : List (String × Paper)) (h : (m.map Prod.fst).Nodup) :
    m.map Prod.snd = (m.map Prod.fst).filterMap (fun k => mapGet m k) := by
  induction m with
  | nil => rfl
  | cons head rest ih =>
    obtain ⟨k₀, v₀⟩ := head
    simp only [List.map_cons, List.nodup_cons] at h
    obtain ⟨hnotin, hnodup⟩ := h
    have h0 : mapGet ((k₀, v₀) :: rest) k₀ = some v₀ := by simp [mapGet_cons]
    simp only [List.map_cons, List.filterMap_cons, h0]
    congr 1
    rw [ih hnodup]
    apply List.filterMap_congr
    intro k hk
    rw [mapGet_cons, if_neg (fun hh => hnotin (by rw [hh]; exact hk))]

/-- Helper for C1: the first-occurrence key list of `papers ++ [p]`. -/
theorem firstKeys_append (pre : List Paper) (p : Paper) :
    firstKeys (pre ++ [p]) =
      if paperKey p ∈ firstKeys pre then firstKeys pre
      else firstKeys pre ++ [paperKey p] := by
  induction pre with
  | nil => simp [firstKeys]
  | cons q rest ih =>
    simp only [List.cons_append, firstKeys, List.append_eq]
    rw [ih]
    by_cases hmem : paperKey p ∈ firstKeys rest
    · rw [if_pos hmem]
      by_cases hpq : paperKey p = paperKey q
      · simp [List.mem_cons, hpq]
      · have hmem' : paperKey p ∈
            (firstKeys rest).filter (fun k => decide (k ≠ paperKey q)) :=
          List.mem_filter.2 ⟨hmem, by simpa using hpq⟩
        rw [if_pos (List.mem_cons.2 (Or.inr hmem'))]
    · rw [if_neg hmem, List.filter_append]
      by_cases hpq : paperKey p = paperKey q
      · simp [List.mem_cons, hpq]
      · have hnotin : paperKey p ∉ paperKey q ::
            (firstKeys rest).filter (fun k => decide (k ≠ paperKey q)) := by
          simp only [List.mem_cons, List.mem_filter]
          push_neg
          exact ⟨hpq, fun hmem' _ => absurd hmem' hmem⟩
        rw [if_neg hnotin]
        simp [hpq]

/-- Helper for C1: first-occurrence key lists contain no duplicates. -/
theorem firstKeys_nodup (papers : List Paper) : (firstKeys papers).Nodup := by
  induction papers with
  | nil => simp [firstKeys]
  | cons p rest ih =>
    simp only [firstKeys, List.nodup_cons]
    refine ⟨fun hmem => ?_, ih.filter _⟩
    have := (List.mem_filter.1 hmem).2
    simp at this

/-- Helper for C1: the survivor scan over `papers ++ [p]`. -/
theorem specBest_append (k : String) (pre : List Paper) (p : Paper) :
    specBest k (pre ++ [p]) =
      if paperKey p = k then
        match specBest k pre with
        | none => some p
        | some b =>
          if completenessScore b < completenessScore p then some p else some b
      else specBest k pre := by
  unfold specBest
  rw [List.foldl_append]
  rfl

/-- Helper for C1: invariant of the dedup fold — after processing a prefix,
the `seen` map holds exactly the first-occurrence keys of the papers
processed so far, each mapped to its survivor. -/
theorem dedup_inv (papers : List Paper) :
    ∀ (pre : List Paper) (m : List (String × Paper)),
      m.map Prod.fst = firstKeys pre →
      (∀ k, mapGet m k = specBest k pre) →
      ((papers.foldl dedupStep m).map Prod.fst = firstKeys (pre ++ papers) ∧
        ∀ k, mapGet (papers.foldl dedupStep m) k = specBest k (pre ++ papers)) := by
  induction papers with
  | nil =>
    intro pre m h1 h2
    simpa using ⟨h1, h2⟩
  | cons p rest ih =>
    intro pre m h1 h2
    have hmain : (dedupStep m p).map Prod.fst = firstKeys (pre ++ [p]) ∧
        ∀ k, mapGet (dedupStep m p) k = specBest k (pre ++ [p]) := by
      cases hget : mapGet m (paperKey p) with
      | none =>
        have hnone : specBest (paperKey p) pre = none := by
          have := h2 (paperKey p); rw [hget] at this; exact this.symm
        have hnotmem : paperKey p ∉ m.map Prod.fst :=
          (mapGet_eq_none_iff m _).1 hget
        have hstep : dedupStep m p = mapSet m (paperKey p) p := by
          simp [dedupStep, hget]
        constructor
        · rw [hstep, mapSet_keys, if_neg hnotmem, h1, firstKeys_append,
            if_neg (h1 ▸ hnotmem)]
        · intro k
          rw [hstep, mapGet_mapSet, specBest_append]
          by_cases hk : paperKey p = k
          · rw [if_pos hk, if_pos hk, ← hk, hnone]
          · rw [if_neg hk, if_neg hk, h2]
      | some existing =>
        have hsome : specBest (paperKey p) pre = some existing := by
          have := h2 (paperKey p); rw [hget] at this; exact this.symm
        have hmem : paperKey p ∈ m.map Prod.fst := by
          by_contra hkabs
          rw [← mapGet_eq_none_iff] at hkabs
          rw [hget] at hkabs
          exact Option.noConfusion hkabs
        cases hcmp : isMoreComplete p existing with
        | true =>
          have hlt : completenessScore existing < completenessScore p := by
            have := hcmp
            unfold isMoreComplete at this
            exact of_decide_eq_true this
          have hstep : dedupStep m p = mapSet m (paperKey p) p := by
            simp [dedupStep, hget, hcmp]
          constructor
          · rw [hstep, mapSet_keys, if_pos hmem, h1, firstKeys_append,
              if_pos (h1 ▸ hmem)]
          · intro k
            rw [hstep, mapGet_mapSet, specBest_append]
            by_cases hk : paperKey p = k
            · rw [if_pos hk, if_pos hk, ← hk, hsome]
              simp [hlt]
            · rw [if_neg hk, if_neg hk, h2]
        | false =>
          have hnlt : ¬ completenessScore existing < completenessScore p := by
            have := hcmp
            unfold isMoreComplete at this
            exact of_decide_eq_false this
          have hstep : dedupStep m p = m := by
            simp [dedupStep, hget, hcmp]
          constructor
          · rw [hstep, h1, firstKeys_append, if_pos (h1 ▸ hmem)]
          · intro k
            rw [hstep, specBest_append]
            by_cases hk : paperKey p = k
            · rw [if_pos hk, ← hk, hsome, hget]
              simp [hnlt]
            · rw [if_neg hk, h2]
    have := ih (pre ++ [p]) (dedupStep m p) hmain.1 hmain.2
    rw [List.append_cons pre p rest]
    exact this

/-- Helper for C1: the Map-based `deduplicatePapers` computes exactly the
declarative per-key survivor list. -/
theorem deduplicatePapers_eq_specDedup (papers : List Paper) :
    deduplicatePapers papers = specDedup papers := by
  obtain ⟨h1, h2⟩ :=
    dedup_inv papers [] [] (by simp [firstKeys]) (fun k => rfl)
  simp only [List.nil_append] at h1 h2
  unfold deduplicatePapers specDedup
  rw [map_snd_eq _ (by rw [h1]; exact firstKeys_nodup papers), h1]
  exact List.filterMap_congr (fun k _ => h2 k)

/-- C1: merging with deduplication enabled concatenates the papers of all
wrappers that carry a result and deduplicates them by the claimed rule:
one survivor per key (lowercased/trimmed DOI when the `doi` field is
truthy, else normalised title + normalised first-author name, as computed
by `paperKey`), the survivor being the paper with the strictly higher
completeness score (+10 DOI, +5 abstract, +3 citation count, +2 full text,
+1 per author, +0.5 per keyword, as computed by `completenessScore`),
first-seen paper kept on ties; the duplicate count is the number of papers
removed. -/
theorem c1_mergeAndDeduplicate (results : List SearchResultWrapper) :
    (mergeAndDeduplicateResults results true).1 = specDedup (specAllPapers results) ∧
    (mergeAndDeduplicateResults results true).2 =
      (specAllPapers results).length - (specDedup (specAllPapers results)).length := by
  have hall := collectPapers_eq results
  have hdedup := deduplicatePapers_eq_specDedup (specAllPapers results)
  constructor <;> simp [mergeAndDeduplicateResults, hall, hdedup]

/-- C10 (witness): a platform with success rate 1/2 and average latency 50
has priority strictly below the fresh platform's. -/
theorem c10_freshPlatform_witness :
    taskPriority
      { successCount := 1, failureCount := 1, totalRequests := 2,
        successRate := 1 / 2, averageLatency := 50,
        consecutiveFailures := 0, isHealthy := true } <
      taskPriority initMetrics :=
  c10_freshPlatform.2.2.2.2.2.2.2 _ (by norm_num) (by norm_num)

end Spec2Proof
